import Mathlib

/-!
Verification development for `src/tactic/sls/bvsls_opt_engine.cpp`, the
stochastic-local-search optimization engine for fixed-width bitvector
objectives.  The engine keeps two trackers (hard constraints / objective),
scans candidate single-variable moves (`find_best_move` / `what_if`),
commits the best one, escapes local optima by randomization
(`randomize_wrt_hard`) and books the best model seen (`save_model`).

The embedding below follows the C++ source line by line.  External
collaborators that live outside the given source tree (the incremental
evaluator, the tracker's random number generator, `top_score`,
`check_restart`, the `mk_*` move primitives of `sls_engine`) are modelled
from the specification document; each such definition carries a
`Modelled from the spec:` comment.  Machine integers (`mpz` values of
bitvector sort) are embedded as `Nat` with explicit `% 2 ^ w`.

A faithfulness note that matters for several theorems: in the C++
`maximize` loop, line 113 declares `mpz score(0);` INSIDE the loop body,
shadowing the outer `score` declared at line 96.  The `while` guard
(line 107) and the `old_score` snapshot (line 110) therefore read the
outer variable, which is never written inside the loop; all writes in the
body (lines 114, 118, 126, 132) hit the shadowed inner variable, which
dies at the end of each iteration.  The embedding reproduces this
faithfully via `MSt.outerScore`.
-/

namespace BvslsOpt

/-- Sort of a tracked constant: boolean, or a bitvector of the given
width.  `bv_sz` in the source is 1 for booleans. -/
inductive VSort where
  | bool : VSort
  | bv : Nat → VSort
deriving DecidableEq

/-- `bv_sz` of a sort (line 226 of the source). -/
def VSort.bvSz : VSort → Nat
  | .bool => 1
  | .bv w => w

/-- `m_bv_util.is_bv_sort` (line 240). -/
def VSort.isBV : VSort → Bool
  | .bool => false
  | .bv _ => true

/-- The move kinds of the engine (`move_type` MV_FLIP / MV_INC / MV_DEC /
MV_INV / MV_UMIN / MV_MUL2 / MV_MUL3 / MV_DIV2). -/
inductive MoveKind where
  | flip : Nat → MoveKind
  | inc : MoveKind
  | dec : MoveKind
  | inv : MoveKind
  | umin : MoveKind
  | mul2 : MoveKind
  | mul3 : MoveKind
  | div2 : MoveKind
deriving DecidableEq

/-- Modelled from the spec: `mk_flip` of `sls_engine` flips bit `j` of a
value (spec 4.3 step 1).  For a boolean (width 1, `j = 0`) this is
boolean negation. -/
def mkFlip (v j : Nat) : Nat := v ^^^ 2 ^ j

/-- Modelled from the spec: `mk_inc` is `+1 mod 2^w` (spec 4.3 step 2). -/
def mkInc (w v : Nat) : Nat := (v + 1) % 2 ^ w

/-- Modelled from the spec: `mk_dec` is `-1 mod 2^w` (spec 4.3 step 2). -/
def mkDec (w v : Nat) : Nat := (v + (2 ^ w - 1)) % 2 ^ w

/-- Modelled from the spec: `mk_inv` is the bitwise complement
(spec 4.3 step 3). -/
def mkInv (w v : Nat) : Nat := 2 ^ w - 1 - v

/-- Modelled from the spec: `mk_mul2` is left shift by one, mod `2^w`
(spec 4.3 step 5). -/
def mkMul2 (w v : Nat) : Nat := (2 * v) % 2 ^ w

/-- Modelled from the spec: `mk_add` modulo `2^w` (used for
multiply-by-three, spec 4.3 step 6). -/
def mkAdd (w a b : Nat) : Nat := (a + b) % 2 ^ w

/-- Modelled from the spec: `mk_div2` is logical right shift by one
(spec 4.3 step 7). -/
def mkDiv2 (v : Nat) : Nat := v / 2

/-- A scenario: the fixed data of one `maximize`/`minimize` call.
Variables are identified by natural-number ids; assignments are lists
indexed by id.

* `objConsts` — `m_obj_tracker.get_constants()`, the ordered
  objective-relevant variables with their sorts;
* `hardVars` — the variables interpreted by the hard tracker's model;
* `hardSat` — modelled from the spec: the exact hard-constraint verdict
  obtained from `incremental_score`/`is_sat` after applying a value
  (spec 4.1/4.2); it is a function of the hard tracker's assignment;
* `objVal` — modelled from the spec: `top_score()`, the exact value of
  the objective under the objective tracker's assignment (spec 4.3(c));
* `objW` — the objective's bitwidth (`obj_bv_sz`);
* `useAddSub`, `useUnaryMinus`, `useMul2Div2`, `useMul3` — the
  compile-time move toggles `_USE_ADDSUB_`, `_USE_UNARY_MINUS_`,
  `_USE_MUL2DIV2_`, `_USE_MUL3_`;
* `checkRestart` — modelled from the spec: the restart-eligibility check
  of the base engine, a function of elapsed seconds;
* `timeLimit` — `_TIMELIMIT_`; elapsed time is modelled as one unit per
  loop iteration;
* `rnd` — modelled from the spec: the random stream behind
  `get_random_uint` / `get_random`; draw `k` yields `rnd k` before
  masking. -/
structure Scen where
  objConsts : List (Nat × VSort)
  hardVars : List Nat
  hardSat : List Nat → Bool
  objVal : List Nat → Nat
  objW : Nat
  useAddSub : Bool
  useUnaryMinus : Bool
  useMul2Div2 : Bool
  useMul3 : Bool
  checkRestart : Nat → Bool
  timeLimit : Nat
  rnd : Nat → Nat

/-- The two trackers' assignments: the hard tracker's (mutated by
`incremental_score`) and the objective tracker's (mutated by
`m_obj_evaluator.update`). -/
structure St where
  hard : List Nat
  objA : List Nat
deriving DecidableEq

/-- One tested candidate move, as recorded during a `find_best_move`
scan: the index of the variable in `objConsts`, the variable id, the
trial value, the move kind, whether the hard constraints stayed
satisfied, and (when satisfied) the objective score observed. -/
structure Test where
  idx : Nat
  var : Nat
  value : Nat
  kind : MoveKind
  sat : Bool
  score : Nat
deriving DecidableEq

/-- The accumulator of a `find_best_move` scan: tracker state, running
best score `new_score`, the out-parameters `best_const` (`none` embeds
the `(unsigned)-1` sentinel), `best_value`, `new_bit`, `move`, and a
ghost log of all tested candidates. -/
structure Acc where
  st : St
  score : Nat
  bestConst : Option Nat
  bestValue : Nat
  newBit : Nat
  move : MoveKind
  tests : List Test
deriving DecidableEq

/-- Helper for `what_if`: `new_bit` is updated only by flip moves
(lines 235-237). -/
def flipBit : MoveKind → Nat → Nat
  | .flip j, _ => j
  | _, b => b

/-- `what_if` (lines 173-204): apply the trial value to the hard tracker
(`incremental_score` applies it unconditionally); if the hard constraints
remain satisfied, apply it to the objective tracker, read `top_score()`,
and record the move when it strictly beats the running best.  Note that
no branch restores the prior value. -/
def whatIf (S : Scen) (idx id : Nat) (k : MoveKind) (temp : Nat) (a : Acc) : Acc :=
  let hard1 := a.st.hard.set id temp
  if S.hardSat hard1 = true then
    let objA1 := a.st.objA.set id temp
    let cur := S.objVal objA1
    if a.score < cur then
      { st := ⟨hard1, objA1⟩, score := cur, bestConst := some idx, bestValue := temp,
        newBit := flipBit k a.newBit, move := k,
        tests := a.tests ++ [⟨idx, id, temp, k, true, cur⟩] }
    else
      { a with st := ⟨hard1, objA1⟩, tests := a.tests ++ [⟨idx, id, temp, k, true, cur⟩] }
  else
    { a with st := ⟨hard1, a.st.objA⟩, tests := a.tests ++ [⟨idx, id, temp, k, false, 0⟩] }

/-- The candidate moves for one variable, in the exact source order
(lines 229-283): all bit flips, then — for bitvector sorts of width
greater than one — increment or decrement according to parity (under
`_USE_ADDSUB_`), bitwise inversion, unary minus (under
`_USE_UNARY_MINUS_`), and multiply-by-2, multiply-by-3, divide-by-2
(under `_USE_MUL2DIV2_` / `_USE_MUL3_`). -/
def varMoves (S : Scen) (old : Nat) (srt : VSort) : List (MoveKind × Nat) :=
  ((List.range srt.bvSz).map (fun j => (MoveKind.flip j, mkFlip old j)))
  ++ (if srt.isBV = true ∧ 1 < srt.bvSz then
        (if S.useAddSub = true then
           (if old % 2 = 1 then [(MoveKind.inc, mkInc srt.bvSz old)]
            else [(MoveKind.dec, mkDec srt.bvSz old)])
         else [])
        ++ [(MoveKind.inv, mkInv srt.bvSz old)]
        ++ (if S.useUnaryMinus = true then
              [(MoveKind.umin, mkInc srt.bvSz (mkInv srt.bvSz old))]
            else [])
        ++ (if S.useMul2Div2 = true then
              [(MoveKind.mul2, mkMul2 srt.bvSz old)]
              ++ (if S.useMul3 = true then
                    [(MoveKind.mul3, mkAdd srt.bvSz old (mkMul2 srt.bvSz old))]
                  else [])
              ++ [(MoveKind.div2, mkDiv2 old)]
            else [])
      else [])

/-- The inner move loop of `find_best_move` for one variable.  The flip
loop (line 230) re-checks `new_score < max_score` before every flip and
stops flipping once it fails (the score never decreases during a scan,
so skipping each remaining flip is the same as the C++ `break`); the
remaining move kinds are not guarded. -/
def movesLoop (S : Scen) (maxScore idx id : Nat) : List (MoveKind × Nat) → Acc → Acc
  | [], a => a
  | (k, v) :: ms, a =>
    match k with
    | .flip j =>
      if a.score < maxScore then
        movesLoop S maxScore idx id ms (whatIf S idx id (.flip j) v a)
      else
        movesLoop S maxScore idx id ms a
    | _ => movesLoop S maxScore idx id ms (whatIf S idx id k v a)

/-- One variable's scan (body of the loop at lines 223-288): read the
prior value from the hard tracker, try every candidate move, then reset
the hard tracker to the prior value (line 287; the objective tracker is
not reset). -/
def scanVar (S : Scen) (maxScore : Nat) (p : Nat × Nat × VSort) (a : Acc) : Acc :=
  let old := a.st.hard.getD p.2.1 0
  let a1 := movesLoop S maxScore p.1 p.2.1 (varMoves S old p.2.2) a
  { a1 with st := ⟨a1.st.hard.set p.2.1 old, a1.st.objA⟩ }

/-- The outer variable loop of `find_best_move`: each variable is scanned
only while `new_score < max_score` still holds (line 223). -/
def fbLoop (S : Scen) (maxScore : Nat) : List (Nat × Nat × VSort) → Acc → Acc
  | [], a => a
  | p :: ps, a =>
    if a.score < maxScore then fbLoop S maxScore ps (scanVar S maxScore p a) else a

/-- `find_best_move` (lines 206-297).  `score0` is the by-value `score`
parameter (the initial running best) and `bc0` the incoming value of the
out-parameter `best_const`; `maximize` passes `0` and `none`. -/
def findBestMove (S : Scen) (maxScore : Nat) (st : St) (score0 : Nat) (bc0 : Option Nat) : Acc :=
  fbLoop S maxScore S.objConsts.enum ⟨st, score0, bc0, 0, 0, MoveKind.flip 0, []⟩

/-- The bit-width bucket of the random index draw in
`randomize_wrt_hard` (line 307): `(csz < 16) ? 4 : (csz < 256) ? 8 :
(csz < 4096) ? 12 : (csz < 65536) ? 16 : 32`. -/
def bitsFor (csz : Nat) : Nat :=
  if csz < 16 then 4
  else if csz < 256 then 8
  else if csz < 4096 then 12
  else if csz < 65536 then 16
  else 32

/-- Result of `randomize_wrt_hard`: success flag, tracker state, the
next random-stream position, and a ghost log of the size of the range
each index was drawn from. -/
structure RandRes where
  success : Bool
  st : St
  rngK : Nat
  draws : List Nat
deriving DecidableEq

/-- The retry loop of `randomize_wrt_hard` (lines 304-328):
`retry_count` starts at the variable count; each retry draws an index
over a `2 ^ bitsFor csz`-sized range, reduces it modulo `csz`, draws a
random value from the variable's sort's domain, and on a change that
keeps the hard constraints satisfied commits it to both trackers;
otherwise the hard tracker is restored and the loop retries. -/
def randLoop (S : Scen) (csz : Nat) : Nat → St → Nat → List Nat → RandRes
  | 0, st, k, ds => ⟨false, st, k, ds⟩
  | n + 1, st, k, ds =>
    let range := 2 ^ bitsFor csz
    let ri := (S.rnd k % range) % csz
    let p := S.objConsts.getD ri (0, VSort.bv 1)
    let randomVal := S.rnd (k + 1) % 2 ^ p.2.bvSz
    let old := st.hard.getD p.1 0
    let ds1 := ds ++ [range]
    if randomVal ≠ old then
      let hard1 := st.hard.set p.1 randomVal
      if S.hardSat hard1 = true then
        ⟨true, ⟨hard1, st.objA.set p.1 randomVal⟩, k + 2, ds1⟩
      else
        randLoop S csz n ⟨hard1.set p.1 old, st.objA⟩ (k + 2) ds1
    else
      randLoop S csz n st (k + 2) ds1

/-- `randomize_wrt_hard` (lines 299-331). -/
def randomizeWrtHard (S : Scen) (st : St) (k : Nat) : RandRes :=
  randLoop S S.objConsts.length S.objConsts.length st k []

/-- Association-list lookup, embedding `model::get_const_interp` /
`has_interpretation`. -/
def lookupM : List (Nat × Nat) → Nat → Option Nat
  | [], _ => none
  | (x, v) :: r, y => if x = y then some v else lookupM r y

/-- The model of a tracker: its current assignment restricted to the
variables it interprets. -/
def restrictM (a : List Nat) (vs : List Nat) : List (Nat × Nat) :=
  vs.map (fun v => (v, a.getD v 0))

/-- The merge loop of `save_model` (lines 155-166): walk the objective
model's constants; a constant the hard model also interprets must agree
(the `SASSERT` at line 162 — the returned flag records whether every
such check passed), a constant it does not interpret is registered. -/
def mergeModels : List (Nat × Nat) → List (Nat × Nat) → List (Nat × Nat) × Bool
  | m, [] => (m, true)
  | m, (v, val) :: r =>
    match lookupM m v with
    | some hval =>
      let res := mergeModels m r
      (res.1, (hval == val) && res.2)
    | none => mergeModels (m ++ [(v, val)]) r

/-- The full state of one `maximize` call.

* `st` — the two trackers' assignments;
* `outerScore` — the `score` variable declared at line 96: read by the
  loop guard (line 107) and the `old_score` snapshot (line 110), and
  never written inside the loop because line 113 shadows it;
* `bestModel`, `bestScore` — `m_best_model`, `m_best_model_score`;
* `time` — elapsed seconds, modelled as one per iteration;
* `movesCnt` — `m_stats.m_moves`;
* `rngK` — position in the random stream;
* `testsCnt` — ghost: how many candidate moves `what_if` has tested;
* `assertOK` — ghost: whether every `save_model` agreement assertion
  held so far. -/
structure MSt where
  st : St
  outerScore : Nat
  bestModel : List (Nat × Nat)
  bestScore : Nat
  time : Nat
  movesCnt : Nat
  rngK : Nat
  testsCnt : Nat
  assertOK : Bool
deriving DecidableEq

/-- `save_model` (lines 151-170): merge the objective model into the
hard model (checking agreement on shared constants) and store the merged
model with the given score. -/
def saveModel (S : Scen) (ms : MSt) (score : Nat) : MSt :=
  let hardM := restrictM ms.st.hard S.hardVars
  let objM := restrictM ms.st.objA (S.objConsts.map Prod.fst)
  let res := mergeModels hardM objM
  { ms with bestModel := res.1, bestScore := score, assertOK := ms.assertOK && res.2 }

/-- The `maximize` loop (lines 105-134), faithful to the shadowing of
`score`: the guard compares `outerScore` (never updated in the body);
`old_score` is read from it at line 110; the `find_best_move` result and
all subsequent writes live in the shadowed inner variable and do not
survive the iteration.  On a best move, it is committed to the hard
tracker (line 131); on none, the model is saved only when `old_score`
strictly exceeds the best-known score (lines 119-120), and
`randomize_wrt_hard` either continues the loop or the call bails out. -/
def mLoop (S : Scen) (maxScore : Nat) : Nat → MSt → MSt
  | 0, ms => ms
  | fuel + 1, ms =>
    if S.checkRestart ms.time = true ∧ ms.time < S.timeLimit ∧ ms.outerScore < maxScore then
      let msA : MSt := { ms with movesCnt := ms.movesCnt + 1 }
      let oldScore := msA.outerScore
      let fb := findBestMove S maxScore msA.st 0 none
      let msB : MSt := { msA with st := fb.st, testsCnt := msA.testsCnt + fb.tests.length }
      match fb.bestConst with
      | none =>
        let msC := if msB.bestScore < oldScore then saveModel S msB oldScore else msB
        let r := randomizeWrtHard S msC.st msC.rngK
        if r.success = true then
          mLoop S maxScore fuel { msC with st := r.st, rngK := r.rngK, time := msC.time + 1 }
        else
          msC
      | some c =>
        let p := S.objConsts.getD c (0, VSort.bv 1)
        mLoop S maxScore fuel
          { msB with st := ⟨msB.st.hard.set p.1 fb.bestValue, msB.st.objA⟩,
                     time := msB.time + 1 }
    else ms

/-- The prologue of `maximize` (lines 85-103): seed the objective
tracker from the hard tracker's model (`set_model`, modelled from the
spec as copying the assignment), read the initial objective score, and
save the initial model. -/
def maximizeInit (S : Scen) (hard0 : List Nat) : MSt :=
  let s0 := S.objVal hard0
  saveModel S ⟨⟨hard0, hard0⟩, s0, [], 0, 0, 0, 0, 0, true⟩ s0

/-- The final state of `maximize(objective)` run from the hard-tracker
assignment `hard0`.  `max_score` is `2 ^ w - 1` (line 101); the fuel
`timeLimit + 1` can never run out before the time guard fails. -/
def maximizeSt (S : Scen) (hard0 : List Nat) : MSt :=
  mLoop S (2 ^ S.objW - 1) (S.timeLimit + 1) (maximizeInit S hard0)

/-- The value `maximize` returns: `mk_numeral(m_best_model_score,
obj_bv_sz)` (line 140), i.e. the best-known score as a numeral of the
objective's width. -/
def maximizeRun (S : Scen) (hard0 : List Nat) : Nat :=
  (maximizeSt S hard0).bestScore % 2 ^ S.objW

/-- The scenario for the negated objective: `mk_bv_neg` (line 147) turns
the objective's value `v` into `(2^w - v) mod 2^w`. -/
def negScen (S : Scen) : Scen :=
  { S with objVal := fun a => (2 ^ S.objW - S.objVal a % 2 ^ S.objW) % 2 ^ S.objW }

/-- `minimize` (lines 144-149): build the two's-complement negation of
the objective and return `maximize` of it, with no further adjustment. -/
def minimizeRun (S : Scen) (hard0 : List Nat) : Nat :=
  maximizeRun (negScen S) hard0

/-- The spec's words for claim C5: the least power of two that is at
least `n` (computed as the first exponent in `0..n` whose power reaches
`n`). -/
def nextPow2 (n : Nat) : Nat :=
  2 ^ ((List.range (n + 1)).filter (fun k => n ≤ 2 ^ k)).headD 0

/-- The values a move catalog offers under a given move kind. -/
def kindVals (l : List (MoveKind × Nat)) (k : MoveKind) : List Nat :=
  (l.filter (fun m => m.1 == k)).map Prod.snd

/-- Concrete scenario: a single 3-bit variable `x` (id 0), trivially
true hard constraints, objective `x` itself. -/
def scen1 : Scen :=
  { objConsts := [(0, VSort.bv 3)]
    hardVars := [0]
    hardSat := fun _ => true
    objVal := fun a => a.getD 0 0
    objW := 3
    useAddSub := true
    useUnaryMinus := false
    useMul2Div2 := false
    useMul3 := false
    checkRestart := fun _ => true
    timeLimit := 3
    rnd := fun _ => 0 }

/-- Concrete scenario for claim C4: a single 3-bit variable whose
objective values are 5 at value 2, 3 at value 0, and 0 elsewhere. -/
def scen4 : Scen :=
  { scen1 with
    objVal := fun a => if a.getD 0 0 = 2 then 5 else if a.getD 0 0 = 0 then 3 else 0 }

/-- Concrete scenario for claim C5: three 3-bit variables and hard
constraints that reject every change, so every retry is used. -/
def scen5 : Scen :=
  { scen1 with
    objConsts := [(0, VSort.bv 3), (1, VSort.bv 3), (2, VSort.bv 3)]
    hardVars := [0, 1, 2]
    hardSat := fun _ => false
    rnd := fun _ => 1 }

/-- Concrete scenario for claims C6 and C10: the objective is the
constant 1 with no relevant free variables. -/
def scenConst : Scen :=
  { scen1 with
    objConsts := []
    hardVars := []
    objVal := fun _ => 1 }

/-- Concrete accumulator for the claim C3 counterexample: scan state
before any move, one variable with value 0 in both trackers. -/
def acc0 : Acc := ⟨⟨[0], [0]⟩, 0, none, 0, 0, MoveKind.flip 0, []⟩

/-- The predicate a recorded best move must satisfy inside the test log:
a satisfiable test whose score reaches `sc`. -/
def goodAt (sc : Nat) : Test → Bool := fun t => t.sat && decide (sc ≤ t.score)

/-- Invariant of a `find_best_move` scan: every satisfiable tested
candidate scores at most the running best; if no best move has been
recorded the running best is still the initial 0 and no satisfiable
candidate scored above it; and a recorded best move is the first tested
candidate attaining the running best score. -/
def Good (a : Acc) : Prop :=
  (∀ t ∈ a.tests, t.sat = true → t.score ≤ a.score) ∧
  (a.bestConst = none → a.score = 0 ∧ ∀ t ∈ a.tests, t.sat = true → t.score = 0) ∧
  (∀ c, a.bestConst = some c → 0 < a.score ∧
    ∃ id k, a.tests.find? (goodAt a.score) =
      some ⟨c, id, a.bestValue, k, true, a.score⟩)

end BvslsOpt

namespace BvslsOpt

theorem set_getD_self : ∀ (l : List Nat) (i : Nat), l.set i (l.getD i 0) = l
  | [], _ => rfl
  | _ :: _, 0 => rfl
  | x :: xs, n + 1 => congrArg (fun t => x :: t) (set_getD_self xs n)

theorem whatIf_hard (S : Scen) (idx id : Nat) (k : MoveKind) (temp : Nat) (a : Acc) :
    (whatIf S idx id k temp a).st.hard = a.st.hard.set id temp := by
  simp only [whatIf]
  split
  · split <;> rfl
  · rfl

theorem movesLoop_hard (S : Scen) (maxScore idx id : Nat) :
    ∀ (ms : List (MoveKind × Nat)) (a : Acc),
      (movesLoop S maxScore idx id ms a).st.hard = a.st.hard ∨
      ∃ t, (movesLoop S maxScore idx id ms a).st.hard = a.st.hard.set id t := by
  intro ms
  induction ms with
  | nil => intro a; exact Or.inl rfl
  | cons m ms ih =>
    intro a
    rcases m with ⟨k, v⟩
    have step : ∀ (b : Acc), b.st.hard = a.st.hard.set id v →
        (movesLoop S maxScore idx id ms b).st.hard = a.st.hard ∨
        ∃ t, (movesLoop S maxScore idx id ms b).st.hard = a.st.hard.set id t := by
      intro b hb
      rcases ih b with h | ⟨t, h⟩
      · exact Or.inr ⟨v, by rw [h, hb]⟩
      · exact Or.inr ⟨t, by rw [h, hb, List.set_set]⟩
    match k with
    | .flip j =>
      simp only [movesLoop]
      split
      · exact step _ (whatIf_hard S idx id (.flip j) v a)
      · exact ih a
    | .inc => exact step _ (whatIf_hard S idx id .inc v a)
    | .dec => exact step _ (whatIf_hard S idx id .dec v a)
    | .inv => exact step _ (whatIf_hard S idx id .inv v a)
    | .umin => exact step _ (whatIf_hard S idx id .umin v a)
    | .mul2 => exact step _ (whatIf_hard S idx id .mul2 v a)
    | .mul3 => exact step _ (whatIf_hard S idx id .mul3 v a)
    | .div2 => exact step _ (whatIf_hard S idx id .div2 v a)

theorem scanVar_hard (S : Scen) (maxScore : Nat) (p : Nat × Nat × VSort) (a : Acc) :
    (scanVar S maxScore p a).st.hard = a.st.hard := by
  simp only [scanVar]
  rcases movesLoop_hard S maxScore p.1 p.2.1 (varMoves S (a.st.hard.getD p.2.1 0) p.2.2) a
    with h | ⟨t, h⟩
  · rw [h, set_getD_self]
  · rw [h, List.set_set, set_getD_self]

theorem fbLoop_hard (S : Scen) (maxScore : Nat) (ps : List (Nat × Nat × VSort)) :
    ∀ (a : Acc), (fbLoop S maxScore ps a).st.hard = a.st.hard := by
  induction ps with
  | nil => intro a; rfl
  | cons p ps ih =>
    intro a
    simp only [fbLoop]
    split
    · rw [ih, scanVar_hard]
    · rfl

/-- C3 (amended): `what_if` does not restore the trial value — it leaves
it applied to the hard tracker (and, when the hard constraints stay
satisfied, to the objective tracker).  Restoration happens once per
variable, after all of that variable's moves, at line 287 of
`find_best_move`; consequently the hard tracker is unchanged when
`find_best_move` returns.  The objective tracker is not restored. -/
theorem C3_find_best_move_restores_hard (S : Scen) (maxScore : Nat) (st : St)
    (score0 : Nat) (bc0 : Option Nat) :
    (findBestMove S maxScore st score0 bc0).st.hard = st.hard :=
  fbLoop_hard S maxScore S.objConsts.enum _

/-- C3 counterexample: a single `what_if` call (variable 0 of `scen1`,
trial value 2 from prior value 0) returns with the trial value still
applied to both trackers, refuting "every call to what_if restores the
variable's prior value before returning". -/
theorem C3_counterexample :
    (whatIf scen1 0 0 (MoveKind.flip 1) 2 acc0).st.hard ≠ acc0.st.hard ∧
    (whatIf scen1 0 0 (MoveKind.flip 1) 2 acc0).st.objA ≠ acc0.st.objA := by decide

/-- C1 (amended): `minimize(e)` builds the two's-complement negation of
the objective and returns exactly what `maximize` returns on it —
`minimize(e) = maximize(-e)` with no final negation — which is in
general neither `-maximize(-e) mod 2^w` nor the minimum attainable value
of `e`. -/
theorem C1_minimize_delegates_to_maximize_neg (S : Scen) (hard0 : List Nat) :
    minimizeRun S hard0 = maximizeRun (negScen S) hard0 ∧
    ∀ a : List Nat,
      (negScen S).objVal a = (2 ^ S.objW - S.objVal a % 2 ^ S.objW) % 2 ^ S.objW :=
  ⟨rfl, fun _ => rfl⟩

/-- C1 counterexample: for the unconstrained 3-bit objective `x` with
initial assignment `x = 3`, `minimize(x)` returns 5, while
`-maximize(-x) mod 8` is 3 and the minimum attainable value of `x` is 0;
so `minimize(e) ≡ -maximize(-e) mod 2^w` fails, as does
"minimize(x) returns 0". -/
theorem C1_counterexample :
    minimizeRun scen1 [3] = 5 ∧
    (2 ^ 3 - maximizeRun (negScen scen1) [3]) % 2 ^ 3 = 3 ∧
    minimizeRun scen1 [3] ≠ (2 ^ 3 - maximizeRun (negScen scen1) [3]) % 2 ^ 3 ∧
    minimizeRun scen1 [3] ≠ 0 := by decide

/-- C2: evaluation of the code at the failing input.  For the 3-bit
objective `x` with trivially-true hard constraints and initial
assignment `x = 0`, the first `maximize` iteration commits the value 7,
whose objective score is the maximum `2^3 - 1`; yet the loop begins
further iterations (the moves counter of the full run exceeds 1),
because the `while` guard at line 107 reads the outer `score` variable
shadowed at line 113 and never updated inside the loop. -/
theorem C2_loop_continues_after_max_committed :
    (mLoop scen1 7 1 (maximizeInit scen1 [0])).st.hard = [7] ∧
    scen1.objVal [7] = 2 ^ 3 - 1 ∧
    2 ≤ (maximizeSt scen1 [0]).movesCnt := by decide

/-- C10: with no objective-relevant variables, `randomize_wrt_hard`
starts with `retry_count = 0`, so the loop body never runs: no random
index is drawn (in particular nothing is reduced modulo zero), both
trackers are untouched, and the call reports failure. -/
theorem C10_empty_randomize (S : Scen) (st : St) (k : Nat)
    (h : S.objConsts = []) :
    randomizeWrtHard S st k = ⟨false, st, k, []⟩ := by
  unfold randomizeWrtHard
  rw [h]
  rfl

/-- C10 witness at a concrete scenario with an empty variable set. -/
theorem C10_witness :
    randomizeWrtHard scenConst ⟨[], []⟩ 0 = ⟨false, ⟨[], []⟩, 0, []⟩ :=
  C10_empty_randomize scenConst ⟨[], []⟩ 0 rfl

end BvslsOpt

namespace BvslsOpt

theorem randLoop_draws (S : Scen) (csz : Nat) :
    ∀ (fuel : Nat) (st : St) (k : Nat) (ds : List Nat),
      (randLoop S csz fuel st k ds).draws.length ≤ ds.length + fuel ∧
      ∀ d ∈ (randLoop S csz fuel st k ds).draws, d ∈ ds ∨ d = 2 ^ bitsFor csz := by
  intro fuel
  induction fuel with
  | zero =>
    intro st k ds
    exact ⟨Nat.le_add_right _ _, fun d hd => Or.inl hd⟩
  | succ n ih =>
    intro st k ds
    simp only [randLoop]
    split
    · split
      · constructor
        · simp only [List.length_append, List.length_cons, List.length_nil]
          omega
        · intro d hd
          rcases List.mem_append.mp hd with h | h
          · exact Or.inl h
          · simp only [List.mem_singleton] at h
            exact Or.inr h
      · refine ⟨le_trans (ih _ _ _).1 ?_, fun d hd => ?_⟩
        · simp only [List.length_append, List.length_cons, List.length_nil]
          omega
        · rcases (ih _ _ _).2 d hd with h | h
          · rcases List.mem_append.mp h with h2 | h2
            · exact Or.inl h2
            · simp only [List.mem_singleton] at h2
              exact Or.inr h2
          · exact Or.inr h
    · refine ⟨le_trans (ih _ _ _).1 ?_, fun d hd => ?_⟩
      · simp only [List.length_append, List.length_cons, List.length_nil]
        omega
      · rcases (ih _ _ _).2 d hd with h | h
        · rcases List.mem_append.mp h with h2 | h2
          · exact Or.inl h2
          · simp only [List.mem_singleton] at h2
            exact Or.inr h2
        · exact Or.inr h

theorem bitsFor_ge (csz : Nat) (h : csz < 2 ^ 32) : csz ≤ 2 ^ bitsFor csz := by
  unfold bitsFor
  repeat' split
  all_goals norm_num at h ⊢
  all_goals omega

/-- C5 (amended): `randomize_wrt_hard` performs at most N retries, where
N is the number of objective-relevant variables, and every retry draws
its random index over a range of size `2 ^ bitsFor N` — 16, 256, 4096,
65536 or `2^32` according to the bucket N falls in — which covers N (for
N below `2^32`) but is not in general the next power of two at or above
N; the draw is then reduced modulo N. -/
theorem C5_retry_and_range (S : Scen) (st : St) (k : Nat) :
    (randomizeWrtHard S st k).draws.length ≤ S.objConsts.length ∧
    (∀ d ∈ (randomizeWrtHard S st k).draws, d = 2 ^ bitsFor S.objConsts.length) ∧
    (S.objConsts.length < 2 ^ 32 →
      S.objConsts.length ≤ 2 ^ bitsFor S.objConsts.length) := by
  have h := randLoop_draws S S.objConsts.length S.objConsts.length st k []
  refine ⟨?_, ?_, fun hc => bitsFor_ge _ hc⟩
  · simpa [randomizeWrtHard] using h.1
  · intro d hd
    rcases h.2 d hd with h0 | h0
    · exact absurd h0 (List.not_mem_nil d)
    · exact h0

/-- C5 witness: the amended theorem applied to the concrete three-variable
scenario. -/
theorem C5_witness :
    (randomizeWrtHard scen5 ⟨[0, 0, 0], [0, 0, 0]⟩ 0).draws.length ≤
      scen5.objConsts.length ∧
    scen5.objConsts.length ≤ 2 ^ bitsFor scen5.objConsts.length := by
  have h := C5_retry_and_range scen5 ⟨[0, 0, 0], [0, 0, 0]⟩ 0
  exact ⟨h.1, h.2.2 (by decide)⟩

/-- C5 counterexample: with 3 objective-relevant variables every index
draw uses a range of size 16, while the next power of two at or above 3
is 4 — refuting "a range sized to the next power-of-two ≥ N". -/
theorem C5_counterexample :
    (randomizeWrtHard scen5 ⟨[0, 0, 0], [0, 0, 0]⟩ 0).draws = [16, 16, 16] ∧
    nextPow2 scen5.objConsts.length = 4 ∧
    ¬ ∀ d ∈ (randomizeWrtHard scen5 ⟨[0, 0, 0], [0, 0, 0]⟩ 0).draws,
        d = nextPow2 scen5.objConsts.length := by decide

theorem maximizeInit_fields (S : Scen) (hard0 : List Nat) :
    (maximizeInit S hard0).bestScore = S.objVal hard0 ∧
    (maximizeInit S hard0).outerScore = S.objVal hard0 ∧
    (maximizeInit S hard0).testsCnt = 0 := by
  simp [maximizeInit, saveModel]

theorem mLoop_const_step (S : Scen) (maxScore fuel : Nat) (ms : MSt)
    (hc : S.objConsts = []) (hbest : ms.bestScore = ms.outerScore) :
    (mLoop S maxScore (fuel + 1) ms).bestScore = ms.bestScore ∧
    (mLoop S maxScore (fuel + 1) ms).testsCnt = ms.testsCnt := by
  have hfb : findBestMove S maxScore ms.st 0 none =
      ⟨ms.st, 0, none, 0, 0, MoveKind.flip 0, []⟩ := by
    simp [findBestMove, hc, fbLoop]
  simp only [mLoop]
  split
  · simp only [hfb]
    have hsave : ¬ (ms.bestScore < ms.outerScore) := by
      rw [hbest]
      exact lt_irrefl _
    simp only [List.length_nil, Nat.add_zero]
    rw [if_neg hsave]
    have hrand : ∀ (st : St) (k : Nat), randomizeWrtHard S st k = ⟨false, st, k, []⟩ := by
      intro st k
      unfold randomizeWrtHard
      rw [hc]
      rfl
    simp [hrand]
  · exact ⟨rfl, rfl⟩

/-- C6 (amended): when the objective is a constant `k` with no relevant
free variables, `maximize` returns `k` and tests no candidate moves
(`find_best_move` scans an empty variable list and `randomize_wrt_hard`
immediately fails, so the call bails out at once); `minimize`, however,
returns `(2^w - k) mod 2^w` — the constant value of the negated
objective — not `k`. -/
theorem C6_constant_objective (S : Scen) (hard0 : List Nat) (k : Nat)
    (hc : S.objConsts = []) (hv : ∀ a, S.objVal a = k) (hk : k < 2 ^ S.objW) :
    maximizeRun S hard0 = k ∧ (maximizeSt S hard0).testsCnt = 0 ∧
    minimizeRun S hard0 = (2 ^ S.objW - k) % 2 ^ S.objW := by
  have hgen : ∀ (T : Scen) (m : Nat), T.objConsts = [] → (∀ a, T.objVal a = m) →
      (maximizeSt T hard0).bestScore = m ∧ (maximizeSt T hard0).testsCnt = 0 := by
    intro T m hTc hTv
    have hf := maximizeInit_fields T hard0
    have hstep := mLoop_const_step T (2 ^ T.objW - 1) T.timeLimit (maximizeInit T hard0)
      hTc (by rw [hf.1, hf.2.1])
    unfold maximizeSt
    rw [hstep.1, hstep.2, hf.1, hf.2.2, hTv]
    exact ⟨rfl, rfl⟩
  have h1 := hgen S k hc hv
  have hneg : ∀ a, (negScen S).objVal a = (2 ^ S.objW - k) % 2 ^ S.objW := by
    intro a
    simp [negScen, hv, Nat.mod_eq_of_lt hk]
  have h2 := hgen (negScen S) ((2 ^ S.objW - k) % 2 ^ S.objW) hc hneg
  have hpos : 0 < 2 ^ S.objW := Nat.pos_pow_of_pos _ (by norm_num)
  refine ⟨?_, h1.2, ?_⟩
  · unfold maximizeRun
    rw [h1.1, Nat.mod_eq_of_lt hk]
  · unfold minimizeRun maximizeRun
    rw [h2.1]
    have : (negScen S).objW = S.objW := rfl
    rw [this, Nat.mod_mod_of_dvd _ dvd_rfl]

/-- C6 witness: the amended theorem at the concrete constant-objective
scenario. -/
theorem C6_witness :
    maximizeRun scenConst [] = 1 ∧ (maximizeSt scenConst []).testsCnt = 0 ∧
    minimizeRun scenConst [] = (2 ^ scenConst.objW - 1) % 2 ^ scenConst.objW :=
  C6_constant_objective scenConst [] 1 rfl (fun _ => rfl) (by decide)

/-- C6 counterexample: for the constant objective 1 of width 3,
`maximize` returns 1 but `minimize` returns 7, refuting "minimize
returns k". -/
theorem C6_counterexample :
    scenConst.objVal [] = 1 ∧ maximizeRun scenConst [] = 1 ∧
    minimizeRun scenConst [] = 7 ∧ minimizeRun scenConst [] ≠ 1 := by decide

end BvslsOpt

namespace BvslsOpt

/-- C9: for a bitvector variable of width `w > 1` (with the
increment/decrement moves enabled), the move catalog tries exactly one
of increment or decrement: `+1 mod 2^w` when the current value is odd,
`-1 mod 2^w` when it is even — never both; and a boolean (width-1)
variable gets neither — its catalog is exactly the single bit flip. -/
theorem C9_incdec_catalog (S : Scen) (old w : Nat)
    (ha : S.useAddSub = true) (hw : 1 < w) :
    ((old % 2 = 1 → (MoveKind.inc, mkInc w old) ∈ varMoves S old (VSort.bv w) ∧
        ∀ v : Nat, (MoveKind.dec, v) ∉ varMoves S old (VSort.bv w)) ∧
     (old % 2 = 0 → (MoveKind.dec, mkDec w old) ∈ varMoves S old (VSort.bv w) ∧
        ∀ v : Nat, (MoveKind.inc, v) ∉ varMoves S old (VSort.bv w))) ∧
    (∀ u : Nat, varMoves S u VSort.bool = [(MoveKind.flip 0, mkFlip u 0)]) ∧
    (∀ u : Nat, varMoves S u (VSort.bv 1) = [(MoveKind.flip 0, mkFlip u 0)]) := by
  refine ⟨⟨?_, ?_⟩, fun u => rfl, fun u => rfl⟩
  · intro h2
    constructor
    · simp [varMoves, VSort.isBV, VSort.bvSz, hw, ha, h2]
    · intro v
      simp only [varMoves, VSort.isBV, VSort.bvSz, hw, ha, h2, if_pos, and_true,
        eq_self_iff_true, if_true, List.mem_append, List.mem_map, List.mem_singleton]
      push_neg
      refine ⟨fun j _ => by simp, ?_⟩
      split_ifs <;> simp_all
  · intro h2
    have h2' : ¬ (old % 2 = 1) := by omega
    constructor
    · simp [varMoves, VSort.isBV, VSort.bvSz, hw, ha, h2']
    · intro v
      simp only [varMoves, VSort.isBV, VSort.bvSz, hw, ha, h2', if_pos, and_true,
        eq_self_iff_true, if_true, List.mem_append, List.mem_map, List.mem_singleton]
      push_neg
      refine ⟨fun j _ => by simp, ?_⟩
      split_ifs <;> simp_all

/-- C9 witness: at width 3 with even current value 2 the catalog
contains the decrement to `(2 + 7) mod 8 = 1` and no increment. -/
theorem C9_witness :
    (MoveKind.dec, mkDec 3 2) ∈ varMoves scen1 2 (VSort.bv 3) ∧
    ∀ v : Nat, (MoveKind.inc, v) ∉ varMoves scen1 2 (VSort.bv 3) :=
  ((C9_incdec_catalog scen1 2 3 rfl (by decide)).1.2) rfl

end BvslsOpt

namespace BvslsOpt

/-- C7: within one `maximize` call the best-known (model, score) pair is
overwritten only on strict improvement — across any number of loop
iterations the stored pair is either exactly the one already stored, or
one with a strictly greater score; in particular the best-known score is
non-decreasing. -/
theorem C7_best_score_monotone (S : Scen) (maxScore : Nat) :
    ∀ (fuel : Nat) (ms : MSt),
      ((mLoop S maxScore fuel ms).bestModel = ms.bestModel ∧
       (mLoop S maxScore fuel ms).bestScore = ms.bestScore) ∨
      ms.bestScore < (mLoop S maxScore fuel ms).bestScore := by
  intro fuel
  induction fuel with
  | zero => intro ms; exact Or.inl ⟨rfl, rfl⟩
  | succ n ih =>
    intro ms
    simp only [mLoop]
    split
    · rcases hbc : (findBestMove S maxScore
          ({ ms with movesCnt := ms.movesCnt + 1 } : MSt).st 0 none).bestConst with _ | c
      · simp only [hbc]
        split
        case isTrue hlt =>
          split
          case isTrue hs =>
            rcases ih _ with ⟨e1, e2⟩ | hgt
            · refine Or.inr ?_
              rw [e2]
              simpa [saveModel] using hlt
            · refine Or.inr (lt_trans ?_ hgt)
              simpa [saveModel] using hlt
          case isFalse hs =>
            refine Or.inr ?_
            simpa [saveModel] using hlt
        case isFalse hlt =>
          split
          case isTrue hs =>
            rcases ih _ with ⟨e1, e2⟩ | hgt
            · exact Or.inl ⟨e1, e2⟩
            · exact Or.inr hgt
          case isFalse hs => exact Or.inl ⟨rfl, rfl⟩
      · simp only [hbc]
        rcases ih _ with ⟨e1, e2⟩ | hgt
        · exact Or.inl ⟨e1, e2⟩
        · exact Or.inr hgt
    · exact Or.inl ⟨rfl, rfl⟩

end BvslsOpt

namespace BvslsOpt

theorem lookupM_append_some (m1 : List (Nat × Nat)) (m2 : List (Nat × Nat)) (y v : Nat)
    (h : lookupM m1 y = some v) : lookupM (m1 ++ m2) y = some v := by
  induction m1 with
  | nil => simp [lookupM] at h
  | cons a t ih =>
    rcases a with ⟨x, w⟩
    by_cases hx : x = y
    · simp only [lookupM, if_pos hx] at h
      simpa [lookupM, hx] using h
    · simp only [lookupM, if_neg hx] at h
      simpa [lookupM, hx] using ih h

theorem lookupM_append_none (m1 : List (Nat × Nat)) (m2 : List (Nat × Nat)) (y : Nat)
    (h : lookupM m1 y = none) : lookupM (m1 ++ m2) y = lookupM m2 y := by
  induction m1 with
  | nil => rfl
  | cons a t ih =>
    rcases a with ⟨x, w⟩
    by_cases hx : x = y
    · simp [lookupM, if_pos hx] at h
    · simp only [lookupM, if_neg hx] at h
      simpa [lookupM, hx] using ih h

theorem lookupM_append_single (m : List (Nat × Nat)) (v val y : Nat) :
    lookupM (m ++ [(v, val)]) y =
      match lookupM m y with
      | some w => some w
      | none => if v = y then some val else none := by
  rcases hl : lookupM m y with _ | w
  · rw [lookupM_append_none m _ y hl]
    rfl
  · rw [lookupM_append_some m _ y w hl]

theorem mergeModels_keeps (objM : List (Nat × Nat)) :
    ∀ (hardM : List (Nat × Nat)) (y v : Nat),
      lookupM hardM y = some v → lookupM (mergeModels hardM objM).1 y = some v := by
  induction objM with
  | nil => intro hardM y v h; exact h
  | cons a r ih =>
    intro hardM y v h
    rcases a with ⟨x, val⟩
    simp only [mergeModels]
    rcases hl : lookupM hardM x with _ | hval
    · exact ih (hardM ++ [(x, val)]) y v (lookupM_append_some _ _ _ _ h)
    · exact ih hardM y v h

theorem mergeModels_covers (objM : List (Nat × Nat)) :
    ∀ (hardM : List (Nat × Nat)) (y v : Nat), (y, v) ∈ objM →
      ∃ w, lookupM (mergeModels hardM objM).1 y = some w := by
  induction objM with
  | nil => intro _ _ _ h; simp at h
  | cons a r ih =>
    intro hardM y v hm
    rcases a with ⟨x, val⟩
    simp only [mergeModels]
    rcases hl : lookupM hardM x with _ | hval
    · rcases List.mem_cons.mp hm with he | ht
      · have hx : x = y := by
          have := congrArg Prod.fst he
          simpa using this.symm
        subst hx
        have hy : lookupM (hardM ++ [(x, val)]) x = some val := by
          rw [lookupM_append_none _ _ _ hl]
          simp [lookupM]
        exact ⟨val, mergeModels_keeps r _ x val hy⟩
      · exact ih (hardM ++ [(x, val)]) y v ht
    · rcases List.mem_cons.mp hm with he | ht
      · have hx : x = y := by
          have := congrArg Prod.fst he
          simpa using this.symm
        subst hx
        exact ⟨hval, mergeModels_keeps r hardM x hval hl⟩
      · exact ih hardM y v ht

theorem restrictM_lookup (a : List Nat) (vs : List Nat) :
    ∀ (y w : Nat), lookupM (restrictM a vs) y = some w → w = a.getD y 0 := by
  induction vs with
  | nil => intro y w h; simp [restrictM, lookupM] at h
  | cons v r ih =>
    intro y w h
    simp only [restrictM, List.map_cons, lookupM] at h
    split at h
    · rename_i hv
      subst hv
      simpa using h.symm
    · exact ih y w (by simpa [restrictM] using h)

theorem lookupM_append_single_none (m : List (Nat × Nat)) (v val y : Nat)
    (h : lookupM m y = none) :
    lookupM (m ++ [(v, val)]) y = if v = y then some val else none := by
  rw [lookupM_append_none _ _ _ h]
  rfl

theorem mergeModels_agree (a : List Nat) (ov : List Nat) :
    ∀ (hardM : List (Nat × Nat)),
      (∀ y w, lookupM hardM y = some w → w = a.getD y 0) →
      (mergeModels hardM (restrictM a ov)).2 = true := by
  induction ov with
  | nil => intro hardM _; rfl
  | cons v r ih =>
    intro hardM hcons
    simp only [restrictM, List.map_cons, mergeModels]
    rcases hl : lookupM hardM v with _ | hval
    · have hr : (restrictM a r) = List.map (fun x => (x, a.getD x 0)) r := rfl
      rw [← hr]
      apply ih
      intro y w hw
      rcases hm : lookupM hardM y with _ | w2
      · rw [lookupM_append_single_none _ _ _ _ hm] at hw
        by_cases hvy : v = y
        · rw [if_pos hvy] at hw
          subst hvy
          have hvw : a.getD v 0 = w := by injection hw
          rw [← hvw]
        · rw [if_neg hvy] at hw
          simp at hw
      · rw [lookupM_append_some _ _ _ _ hm] at hw
        obtain rfl : w2 = w := by injection hw
        exact hcons y w2 hm
    · have hval2 : hval = a.getD v 0 := hcons v hval hl
      have hr : (restrictM a r) = List.map (fun x => (x, a.getD x 0)) r := rfl
      rw [← hr]
      simp [hval2, ih hardM hcons]

theorem restrictM_mem (a : List Nat) (vs : List Nat) (y : Nat) (h : y ∈ vs) :
    (y, a.getD y 0) ∈ restrictM a vs := by
  simp only [restrictM, List.mem_map]
  exact ⟨y, h, rfl⟩

theorem maximizeInit_ok (S : Scen) (hard0 : List Nat) :
    (maximizeInit S hard0).assertOK = true ∧
    (maximizeInit S hard0).outerScore ≤ (maximizeInit S hard0).bestScore ∧
    ∀ p ∈ S.objConsts, ∃ w, lookupM (maximizeInit S hard0).bestModel p.1 = some w := by
  refine ⟨?_, ?_, ?_⟩
  · show (true && (mergeModels (restrictM hard0 S.hardVars)
      (restrictM hard0 (S.objConsts.map Prod.fst))).2) = true
    rw [Bool.true_and]
    exact mergeModels_agree hard0 (S.objConsts.map Prod.fst) (restrictM hard0 S.hardVars)
      (restrictM_lookup hard0 S.hardVars)
  · exact le_refl _
  · intro p hp
    show ∃ w, lookupM (mergeModels (restrictM hard0 S.hardVars)
      (restrictM hard0 (S.objConsts.map Prod.fst))).1 p.1 = some w
    apply mergeModels_covers _ _ p.1 (hard0.getD p.1 0)
    exact restrictM_mem hard0 _ p.1 (List.mem_map.mpr ⟨p, hp, rfl⟩)

theorem mLoop_Q (S : Scen) (maxScore : Nat) :
    ∀ (fuel : Nat) (ms : MSt),
      ms.assertOK = true → ms.outerScore ≤ ms.bestScore →
      (∀ p ∈ S.objConsts, ∃ w, lookupM ms.bestModel p.1 = some w) →
      (mLoop S maxScore fuel ms).assertOK = true ∧
      ∀ p ∈ S.objConsts, ∃ w, lookupM (mLoop S maxScore fuel ms).bestModel p.1 = some w := by
  intro fuel
  induction fuel with
  | zero => intro ms h1 h2 h3; exact ⟨h1, h3⟩
  | succ n ih =>
    intro ms h1 h2 h3
    simp only [mLoop]
    split
    · rcases hbc : (findBestMove S maxScore
          ({ ms with movesCnt := ms.movesCnt + 1 } : MSt).st 0 none).bestConst with _ | c
      · simp only [hbc]
        split
        case isTrue hlt => exact absurd hlt (Nat.not_lt.mpr h2)
        case isFalse hlt =>
          split
          · exact ih _ h1 h2 h3
          · exact ⟨h1, h3⟩
      · simp only [hbc]
        exact ih _ h1 h2 h3
    · exact ⟨h1, h3⟩

/-- C8: at every save point actually reached during a `maximize` run,
the hard and objective models agree on every shared variable — the
agreement assertion of `save_model` holds — and every variable the
objective model interprets ends up interpreted in the saved model.  (The
initial save merges two restrictions of one assignment; the in-loop save
at lines 119-120 can never fire because `old_score` reads the shadowed
outer score, which never exceeds the best-known score.) -/
theorem C8_save_agreement_and_merge (S : Scen) (hard0 : List Nat) :
    (maximizeSt S hard0).assertOK = true ∧
    ∀ p ∈ S.objConsts, ∃ w, lookupM (maximizeSt S hard0).bestModel p.1 = some w := by
  have hinit := maximizeInit_ok S hard0
  exact mLoop_Q S (2 ^ S.objW - 1) (S.timeLimit + 1) (maximizeInit S hard0)
    hinit.1 hinit.2.1 hinit.2.2

/-- C8 witness: the agreement flag and the merged interpretation of
variable 0 in the concrete one-variable run. -/
theorem C8_witness :
    (maximizeSt scen1 [0]).assertOK = true ∧
    ∃ w, lookupM (maximizeSt scen1 [0]).bestModel 0 = some w := by
  have h := C8_save_agreement_and_merge scen1 [0]
  exact ⟨h.1, h.2 (0, VSort.bv 3) (by decide)⟩

end BvslsOpt

namespace BvslsOpt

theorem whatIf_good (S : Scen) (idx id : Nat) (k : MoveKind) (temp : Nat) (a : Acc)
    (h : Good a) : Good (whatIf S idx id k temp a) := by
  obtain ⟨h1, h2, h3⟩ := h
  unfold Good
  simp only [whatIf]
  split
  · split
    case isTrue hsat himp =>
      refine ⟨?_, ?_, ?_⟩
      · intro t ht hts
        rcases List.mem_append.mp ht with ht | ht
        · exact le_of_lt (lt_of_le_of_lt (h1 t ht hts) himp)
        · simp only [List.mem_singleton] at ht
          subst ht
          exact le_refl _
      · intro hbc
        exact absurd hbc (by simp)
      · intro c hc
        obtain rfl : idx = c := Option.some.inj hc
        refine ⟨Nat.lt_of_le_of_lt (Nat.zero_le _) himp, id, k, ?_⟩
        rw [List.find?_append]
        have hnone : a.tests.find? (goodAt (S.objVal (a.st.objA.set id temp))) = none := by
          rw [List.find?_eq_none]
          intro t ht
          simp only [goodAt, Bool.and_eq_true, decide_eq_true_eq, not_and]
          intro hts
          exact Nat.not_le.mpr (lt_of_le_of_lt (h1 t ht hts) himp)
        have hpt : goodAt (S.objVal (a.st.objA.set id temp))
            ⟨idx, id, temp, k, true, S.objVal (a.st.objA.set id temp)⟩ = true := by
          simp [goodAt]
        rw [hnone, List.find?_cons_of_pos _ hpt]
        rfl
    case isFalse hsat hnimp =>
      have hle : S.objVal (a.st.objA.set id temp) ≤ a.score := Nat.not_lt.mp hnimp
      refine ⟨?_, ?_, ?_⟩
      · intro t ht hts
        rcases List.mem_append.mp ht with ht | ht
        · exact h1 t ht hts
        · simp only [List.mem_singleton] at ht
          subst ht
          exact hle
      · intro hbc
        obtain ⟨hz, hall⟩ := h2 hbc
        refine ⟨hz, ?_⟩
        intro t ht hts
        rcases List.mem_append.mp ht with ht | ht
        · exact hall t ht hts
        · simp only [List.mem_singleton] at ht
          subst ht
          exact Nat.le_zero.mp (by rw [← hz]; exact hle)
      · intro c hc
        obtain ⟨hpos, id2, k2, hf⟩ := h3 c hc
        refine ⟨hpos, id2, k2, ?_⟩
        rw [List.find?_append, hf]
        rfl
  · case isFalse hsat =>
      refine ⟨?_, ?_, ?_⟩
      · intro t ht hts
        rcases List.mem_append.mp ht with ht | ht
        · exact h1 t ht hts
        · simp only [List.mem_singleton] at ht
          subst ht
          simp at hts
      · intro hbc
        obtain ⟨hz, hall⟩ := h2 hbc
        refine ⟨hz, ?_⟩
        intro t ht hts
        rcases List.mem_append.mp ht with ht | ht
        · exact hall t ht hts
        · simp only [List.mem_singleton] at ht
          subst ht
          simp at hts
      · intro c hc
        obtain ⟨hpos, id2, k2, hf⟩ := h3 c hc
        refine ⟨hpos, id2, k2, ?_⟩
        rw [List.find?_append, hf]
        rfl

theorem movesLoop_good (S : Scen) (maxScore idx id : Nat) :
    ∀ (ms : List (MoveKind × Nat)) (a : Acc), Good a →
      Good (movesLoop S maxScore idx id ms a) := by
  intro ms
  induction ms with
  | nil => intro a h; exact h
  | cons m ms ih =>
    intro a h
    rcases m with ⟨k, v⟩
    match k with
    | .flip j =>
      simp only [movesLoop]
      split
      · exact ih _ (whatIf_good S idx id (.flip j) v a h)
      · exact ih _ h
    | .inc => exact ih _ (whatIf_good S idx id .inc v a h)
    | .dec => exact ih _ (whatIf_good S idx id .dec v a h)
    | .inv => exact ih _ (whatIf_good S idx id .inv v a h)
    | .umin => exact ih _ (whatIf_good S idx id .umin v a h)
    | .mul2 => exact ih _ (whatIf_good S idx id .mul2 v a h)
    | .mul3 => exact ih _ (whatIf_good S idx id .mul3 v a h)
    | .div2 => exact ih _ (whatIf_good S idx id .div2 v a h)

theorem scanVar_good (S : Scen) (maxScore : Nat) (p : Nat × Nat × VSort) (a : Acc)
    (h : Good a) : Good (scanVar S maxScore p a) :=
  movesLoop_good S maxScore p.1 p.2.1 _ a h

theorem fbLoop_good (S : Scen) (maxScore : Nat) (ps : List (Nat × Nat × VSort)) :
    ∀ (a : Acc), Good a → Good (fbLoop S maxScore ps a) := by
  induction ps with
  | nil => intro a h; exact h
  | cons p ps ih =>
    intro a h
    simp only [fbLoop]
    split
    · exact ih _ (scanVar_good S maxScore p a h)
    · exact h

theorem good_init (st : St) : Good ⟨st, 0, none, 0, 0, MoveKind.flip 0, []⟩ := by
  refine ⟨?_, ?_, ?_⟩
  · intro t ht
    simp at ht
  · intro _
    exact ⟨rfl, fun t ht => by simp at ht⟩
  · intro c hc
    simp at hc

/-- C4 (amended): `find_best_move` signals "no improving move" exactly
when no tested candidate that keeps the hard constraints satisfied
yields an objective score strictly greater than zero — the baseline is
the initial best score 0 passed in by `maximize`, not the current
objective score, so the move it returns may score below the current
score.  Otherwise it returns the first tested candidate whose score
equals the greatest score among all tested candidates (testing stops
early once the maximum score `2^w - 1` has been reached). -/
theorem C4_best_move_characterization (S : Scen) (maxScore : Nat) (st : St) :
    ((findBestMove S maxScore st 0 none).bestConst = none ↔
      ∀ t ∈ (findBestMove S maxScore st 0 none).tests, t.sat = true → t.score = 0) ∧
    (∀ t ∈ (findBestMove S maxScore st 0 none).tests, t.sat = true →
      t.score ≤ (findBestMove S maxScore st 0 none).score) ∧
    (∀ c, (findBestMove S maxScore st 0 none).bestConst = some c →
      0 < (findBestMove S maxScore st 0 none).score ∧
      ∃ id k, (findBestMove S maxScore st 0 none).tests.find?
          (goodAt (findBestMove S maxScore st 0 none).score) =
        some ⟨c, id, (findBestMove S maxScore st 0 none).bestValue, k, true,
          (findBestMove S maxScore st 0 none).score⟩) := by
  have hg : Good (findBestMove S maxScore st 0 none) :=
    fbLoop_good S maxScore S.objConsts.enum _ (good_init st)
  obtain ⟨h1, h2, h3⟩ := hg
  refine ⟨⟨fun hn => (h2 hn).2, fun hall => ?_⟩, h1, h3⟩
  rcases hbc : (findBestMove S maxScore st 0 none).bestConst with _ | c
  · rfl
  · obtain ⟨hpos, id2, k2, hf⟩ := h3 c hbc
    have hmem := List.mem_of_find?_eq_some hf
    have hzero : (findBestMove S maxScore st 0 none).score = 0 := hall _ hmem rfl
    rw [hzero] at hpos
    exact absurd hpos (lt_irrefl 0)

/-- C4 counterexample: in `scen4` the current objective score is 5 and
no candidate reaches a score above 5, yet `find_best_move` does not
signal "no improving move" — it returns the candidate scoring 3,
refuting the claimed equivalence against the current objective score. -/
theorem C4_counterexample :
    scen4.objVal [2] = 5 ∧
    ¬ ((findBestMove scen4 7 ⟨[2], [2]⟩ 0 none).bestConst = none ↔
        ∀ t ∈ (findBestMove scen4 7 ⟨[2], [2]⟩ 0 none).tests,
          t.sat = true → ¬ (5 < t.score)) := by decide

/-- C4 witness: the amended characterization applied at `scen4`, where
the returned candidate is variable index 0 with value 0 and score 3. -/
theorem C4_witness :
    0 < (findBestMove scen4 7 ⟨[2], [2]⟩ 0 none).score ∧
    ∃ id k, (findBestMove scen4 7 ⟨[2], [2]⟩ 0 none).tests.find?
        (goodAt (findBestMove scen4 7 ⟨[2], [2]⟩ 0 none).score) =
      some ⟨0, id, (findBestMove scen4 7 ⟨[2], [2]⟩ 0 none).bestValue, k, true,
        (findBestMove scen4 7 ⟨[2], [2]⟩ 0 none).score⟩ :=
  (C4_best_move_characterization scen4 7 ⟨[2], [2]⟩).2.2 0 (by decide)

end BvslsOpt
